import Mathlib

/-!
Shallow embedding of the `fireplace` terminal fire animation (Go).

The repository holds one named file `main.go` plus several near-duplicate
variants of the same program.  The heat-field tick (`updateFire`,
`getLogHeight`, `initFire`, `resize`) is embedded from `main.go`; the
capsule ("log"/"stick") geometry pipeline (`generateLogs`: sort by depth,
reassign ids, rasterize via point-to-segment distance) is embedded from the
capsule variants (`part_000` / `part_001` / `part_002`), which share that
code verbatim except for the zero-length-segment guard noted below.

Modelling conventions:
* Go `int` heat values become `Int`; grid buffers become flat `List`s
  (row-major, as in the source), read with `List.getD _ _ 0` and written
  with `List.set` — the source always bounds-checks (or provably stays in
  bounds) before writing, mirrored by explicit guards where the source has
  them.
* `math/rand` is modelled by an explicit stream of naturals: `rand.Intn n`
  consumes the next stream element reduced `% n`, so every possible
  sequence of draws is covered by quantifying over streams.  Draws are
  consumed in exactly the source order, including conditionally consumed
  draws (Go's short-circuit `&&`).
* `float64` geometry arithmetic is modelled exactly over `ℚ`.  The one
  float-specific behaviour that matters — `t := dot/lenSq` for a
  zero-length segment — is treated explicitly (see `capsuleHit000` /
  `capsuleHit001` / the `lenSq = 0` guard in `capsuleCovers`).
-/

namespace Fireplace

/-- Model of `math/rand`: an infinite stream of naturals plus a cursor. -/
structure Rng where
  stream : Nat → Nat
  idx : Nat

/-- Model of `rand.Intn n`: consume one draw, reduced mod `n` so the result is `< n`
for `n > 0` (all call sites in the modelled code pass a positive constant). -/
def Rng.intn (g : Rng) (n : Nat) : Nat × Rng :=
  (g.stream g.idx % n, ⟨g.stream, g.idx + 1⟩)

/-- The package-level simulation dimensions of `main.go`
(`width`, `height`, `fireHeight`, `hearthLeft`, `hearthRight`), plus the
ember-probability constant (literal `8` in `updateFire`; kept as a field so
the "ember disabled" scenario of the spec can set it to `0`). -/
structure FireCfg where
  width : Nat
  height : Nat
  fireHeight : Nat
  hearthLeft : Nat
  hearthRight : Nat
  emberChance : Nat

/-- The hearth center `center := (hearthLeft + hearthRight) / 2` (integer division). -/
def hearthCenter (cfg : FireCfg) : Nat := (cfg.hearthLeft + cfg.hearthRight) / 2

/-- The distance-based extra decay of `updateFire` (`main.go`):
`dist := |x - center|`, `normDist := dist / halfWidth`,
`decay += int(normDist * 4.0)`.  Go's `float64` arithmetic is modelled
exactly over `ℚ`; `int(·)` truncates toward zero, which for the
nonnegative quotient is `Rat.floor`, and `Int.toNat` keeps the value a
natural (the Go value is nonnegative whenever `halfWidth > 0`, the only
case reachable from `resize`). -/
def distDecay (cfg : FireCfg) (x : Nat) : Nat :=
  let halfWidth : ℚ := ((cfg.hearthRight : ℚ) - (cfg.hearthLeft : ℚ)) / 2
  let dist : ℚ := |(x : ℚ) - (hearthCenter cfg : ℚ)|
  (((dist / halfWidth) * 4).floor).toNat

/-- One inner-loop step of phase 1 of `updateFire` (`main.go`), for source
cell `(x, y)` with `1 ≤ y < fireHeight`:
read `pixel := fire[y*width+x]`; if zero, clear the cell one row above
(`fire[src-width] = 0`, guarded by `src-width >= 0`); otherwise jitter the
destination column by `- rand.Intn 3 + 1`, clamp it to `[0, width-1]`,
compute `decay := rand.Intn 2 + int(normDist*4)` plus `2` in the upper half
of the grid, and write `max 0 (pixel - decay)` one row above.
(The source's `if dstIndex < 0 { continue }` can only fire when
`width = 0`, in which case the column loop is empty; it has no model.) -/
def propagateCell (cfg : FireCfg) (fire : List Int) (g : Rng) (x y : Nat) :
    List Int × Rng :=
  let src := y * cfg.width + x
  let pixel := fire.getD src 0
  if pixel = 0 then
    (if cfg.width ≤ src then fire.set (src - cfg.width) 0 else fire, g)
  else
    let p1 := g.intn 3
    let dstX0 : Int := (x : Int) - (p1.1 : Int) + 1
    let dstX : Nat :=
      if dstX0 < 0 then 0
      else if (cfg.width : Int) ≤ dstX0 then cfg.width - 1
      else dstX0.toNat
    let dstIndex := (y - 1) * cfg.width + dstX
    let p2 := p1.2.intn 2
    let decay : Nat :=
      p2.1 + distDecay cfg x + (if y < cfg.fireHeight / 2 then 2 else 0)
    (fire.set dstIndex (max 0 (pixel - (decay : Int))), p2.2)

/-- Phase 1 of `updateFire`: for each column `x` in `[0, width)`, sweep the
rows `y = 1, …, fireHeight-1` upward-propagating heat (`main.go`). -/
def propagate (cfg : FireCfg) (fire : List Int) (g : Rng) : List Int × Rng :=
  (List.range cfg.width).foldl
    (fun fg x =>
      (List.range' 1 (cfg.fireHeight - 1)).foldl
        (fun fg y => propagateCell cfg fg.1 fg.2 x y) fg)
    (fire, g)

/-- The row scan inside `getLogHeight` (`main.go`): return the first row
`y` of the given row list whose cell in column `x` holds a nonzero id. -/
def firstOwnedRow (wood : List Nat) (w x : Nat) : List Nat → Option Nat
  | [] => none
  | y :: ys =>
    if wood.getD (y * w + x) 0 ≠ 0 then some y
    else firstOwnedRow wood w x ys

/-- Model of `getLogHeight` (`main.go`): for column `x`, scan rows top (`0`) to
bottom (`height-1`); at the first nonzero ownership cell return
`height - 1 - y`, else `0`.  The source also returns `0` for
`x < 0 || x >= width`; with `x : Nat` only the upper guard remains. -/
def getLogHeight (cfg : FireCfg) (wood : List Nat) (x : Nat) : Nat :=
  if cfg.width ≤ x then 0
  else
    match firstOwnedRow wood cfg.width x (List.range cfg.height) with
    | some y => cfg.height - 1 - y
    | none => 0

/-- One iteration of phase 2 of `updateFire` (`main.go`), for hearth
column `x`: skip if `getLogHeight x <= 0`; otherwise pick the fire-grid
row `fireY = (height-1-h)*2 + rand.Intn 6` clamped into
`[0, fireHeight-1]` (in the source's order: upper clamp first), and if the
flat index is in bounds draw `r := rand.Intn 100` to choose heat `0`, `36`
or `20`, upgrade to `36` near the hearth center when `|x-center| < 5` and
`rand.Intn 10 > 2` (the second draw happens only when the distance test
passes, as with Go's short-circuit `&&`), and write the heat if positive. -/
def refuelCol (cfg : FireCfg) (wood : List Nat) (fire : List Int) (g : Rng)
    (x : Nat) : List Int × Rng :=
  let h := getLogHeight cfg wood x
  if h = 0 then (fire, g)
  else
    let p1 := g.intn 6
    let fireY0 : Int := ((cfg.height : Int) - 1 - (h : Int)) * 2 + (p1.1 : Int)
    let fireY1 : Int :=
      if (cfg.fireHeight : Int) ≤ fireY0 then (cfg.fireHeight : Int) - 1
      else fireY0
    let fireY : Nat := (if fireY1 < 0 then 0 else fireY1).toNat
    let idx : Nat := fireY * cfg.width + x
    if idx < fire.length then
      let p2 := p1.2.intn 100
      let heat0 : Int := if 40 < p2.1 then 0 else if 30 < p2.1 then 36 else 20
      let dist : Int := |(x : Int) - (hearthCenter cfg : Int)|
      let hp :=
        if dist < 5 then
          let p3 := p2.2.intn 10
          ((if 2 < p3.1 then (36 : Int) else heat0), p3.2)
        else (heat0, p2.2)
      (if 0 < hp.1 then fire.set idx hp.1 else fire, hp.2)
    else (fire, p1.2)

/-- Phase 2 of `updateFire`: refuel every hearth column
`x = hearthLeft, …, hearthRight-1` (`main.go`). -/
def refuel (cfg : FireCfg) (wood : List Nat) (fire : List Int) (g : Rng) :
    List Int × Rng :=
  (List.range' cfg.hearthLeft (cfg.hearthRight - cfg.hearthLeft)).foldl
    (fun fg x => refuelCol cfg wood fg.1 fg.2 x) (fire, g)

/-- Phase 3 of `updateFire` (`main.go`): with probability
`emberChance`/100 (source constant `8`), set one random cell at a random
hearth column and a mid-to-upper row to `36`, bounds-checked.  (With
`idx : Nat` the source's `idx >= 0` conjunct is vacuous.) -/
def ember (cfg : FireCfg) (fire : List Int) (g : Rng) : List Int × Rng :=
  let p1 := g.intn 100
  if p1.1 < cfg.emberChance then
    let p2 := p1.2.intn (cfg.hearthRight - cfg.hearthLeft)
    let rx := cfg.hearthLeft + p2.1
    let p3 := p2.2.intn 20
    let ry := (cfg.height / 2) * 2 + p3.1
    let idx := ry * cfg.width + rx
    (if idx < fire.length then fire.set idx 36 else fire, p3.2)
  else (fire, p1.2)

/-- Model of `updateFire` (`main.go`): one full simulation tick — propagate-and-
decay over all columns, then refuel from the wood surface, then the ember
step. -/
def updateFire (cfg : FireCfg) (wood : List Nat) (fire : List Int)
    (g : Rng) : List Int × Rng :=
  let s1 := propagate cfg fire g
  let s2 := refuel cfg wood s1.1 s1.2
  ember cfg s2.1 s2.2

/-! ## Geometry: capsules, depth sort, id assignment, rasterization
(from `generateLogs` in the capsule variants `part_000`/`part_001`/`part_002`). -/

/-- The `Log` struct of the capsule variants: a thick segment
`(x1,y1)-(x2,y2)` with radius `r`, a depth key (set to the base point's
`y1` at generation time) and an integer id. -/
structure Capsule where
  x1 : ℚ
  y1 : ℚ
  x2 : ℚ
  y2 : ℚ
  r : ℚ
  depth : ℚ
  id : Nat
deriving DecidableEq

/-- The fixed anisotropy factor `aspect := 2.0` of `generateLogs`. -/
def aspect : ℚ := 2

/-- The per-capsule hit test of the rasterizer in `generateLogs`: squared
point-to-segment distance in the scaled space (`y` coordinates multiplied
by `aspect`), via the clamped projection parameter
`t = clamp(((P-A)·(B-A))/|B-A|², 0, 1)`, compared against `(r·aspect)²`.
The `lenSq = 0` branch returns `false`: this is the explicit skip of the
`part_001` variant, and also the effective behaviour of the unguarded
`part_000`/`part_002` variants under IEEE semantics (`t` becomes NaN and
the distance comparison fails).  See `capsuleHit000`/`capsuleHit001` for
the division-tracking versions. -/
def capsuleCovers (l : Capsule) (px py : ℚ) : Bool :=
  let pya := py * aspect
  let ax := l.x1
  let ay := l.y1 * aspect
  let bx := l.x2
  let by2 := l.y2 * aspect
  let abx := bx - ax
  let aby := by2 - ay
  let apx := px - ax
  let apy := pya - ay
  let lenSq := abx * abx + aby * aby
  if lenSq = 0 then false
  else
    let t0 := (apx * abx + apy * aby) / lenSq
    let t := if t0 < 0 then 0 else if 1 < t0 then 1 else t0
    let cx := ax + t * abx
    let cy := ay + t * aby
    let dx := px - cx
    let dy := pya - cy
    decide (dx * dx + dy * dy ≤ (l.r * aspect) * (l.r * aspect))

/-- The inner capsule scan of the rasterizer: return the id of the first
capsule in the given list that covers the cell (the Go loop `break`s at
the first hit), or `0` if none does.  The Go loop runs over the capsule
array from the highest index down, so the rasterizer applies this to the
reversed capsule list (see `coverId`). -/
def findHit : List Capsule → ℚ → ℚ → Nat
  | [], _, _ => 0
  | l :: ls, px, py =>
    if capsuleCovers l px py then l.id else findHit ls px py

/-- Ownership of one cell: scan the capsules from the highest index to the
lowest (front-most first after the depth sort), first hit wins, `0` if no
capsule covers the cell. -/
def coverId (logs : List Capsule) (px py : ℚ) : Nat :=
  findHit logs.reverse px py

/-- The rasterization loop of `generateLogs`: `woodMap` starts all-zero
and cell `(x, y)` (flat index `i = y*width + x`, so `x = i % width`,
`y = i / width`) receives `coverId` of that cell. -/
def rasterize (w h : Nat) (logs : List Capsule) : List Nat :=
  (List.range (w * h)).map
    (fun i => coverId logs ((i % w : Nat) : ℚ) ((i / w : Nat) : ℚ))

/-- The comparison used by `sort.Slice(logs, …)` in `generateLogs`:
ascending depth. -/
def depthLE (a b : Capsule) : Prop := a.depth ≤ b.depth

instance : DecidableRel depthLE := fun a b => inferInstanceAs (Decidable (a.depth ≤ b.depth))

instance : IsTotal Capsule depthLE := ⟨fun a b => le_total a.depth b.depth⟩

instance : IsTrans Capsule depthLE := ⟨fun _ _ _ h1 h2 => le_trans h1 h2⟩

/-- The depth sort of `generateLogs` (`sort.Slice` ascending by `depth`;
the Go sort is unstable, so only sortedness is contractual — modelled by
insertion sort). -/
def sortByDepth (logs : List Capsule) : List Capsule :=
  List.insertionSort depthLE logs

/-- The id-reassignment loop of `generateLogs`
(`for i := range logs { logs[i].id = i + 1 }`), with `i` starting at the
given offset. -/
def reassignIds : Nat → List Capsule → List Capsule
  | _, [] => []
  | i, l :: ls => { l with id := i + 1 } :: reassignIds (i + 1) ls

/-- Sort by depth, then reassign ids `1..N` in sorted order
(`generateLogs`, after placement and before rasterization). -/
def generateIds (logs : List Capsule) : List Capsule :=
  reassignIds 0 (sortByDepth logs)

/-- Division that records a division by zero instead of performing it. -/
def checkedDiv (a b : ℚ) : Option ℚ :=
  if b = 0 then none else some (a / b)

/-- The per-capsule hit test exactly as written in the `part_000` and
`part_002` rasterizers: no zero-length guard, so
`t := (apx*abx + apy*aby) / lenSq` is computed even when `lenSq = 0`.
`none` marks that a division by zero was attempted. -/
def capsuleHit000 (l : Capsule) (px py : ℚ) : Option Bool :=
  let pya := py * aspect
  let ax := l.x1
  let ay := l.y1 * aspect
  let bx := l.x2
  let by2 := l.y2 * aspect
  let abx := bx - ax
  let aby := by2 - ay
  let apx := px - ax
  let apy := pya - ay
  let lenSq := abx * abx + aby * aby
  match checkedDiv (apx * abx + apy * aby) lenSq with
  | none => none
  | some t0 =>
    let t := if t0 < 0 then 0 else if 1 < t0 then 1 else t0
    let cx := ax + t * abx
    let cy := ay + t * aby
    let dx := px - cx
    let dy := pya - cy
    some (decide (dx * dx + dy * dy ≤ (l.r * aspect) * (l.r * aspect)))

/-- The per-capsule hit test exactly as written in the `part_001`
rasterizer: `if lenSq == 0 { continue }` skips the capsule before `t` is
computed, so the division is never attempted on a zero-length segment. -/
def capsuleHit001 (l : Capsule) (px py : ℚ) : Option Bool :=
  let pya := py * aspect
  let ax := l.x1
  let ay := l.y1 * aspect
  let bx := l.x2
  let by2 := l.y2 * aspect
  let abx := bx - ax
  let aby := by2 - ay
  let apx := px - ax
  let apy := pya - ay
  let lenSq := abx * abx + aby * aby
  if lenSq = 0 then some false
  else
    match checkedDiv (apx * abx + apy * aby) lenSq with
    | none => none
    | some t0 =>
      let t := if t0 < 0 then 0 else if 1 < t0 then 1 else t0
      let cx := ax + t * abx
      let cy := ay + t * aby
      let dx := px - cx
      let dy := pya - cy
      some (decide (dx * dx + dy * dy ≤ (l.r * aspect) * (l.r * aspect)))

/-- Model of `initFire` (`main.go`): `fire = make([]int, width*fireHeight)` — a
fresh all-zero heat field. -/
def initFire (width fireHeight : Nat) : List Int :=
  List.replicate (width * fireHeight) 0

/-- The two simulation grids owned by the tick loop. -/
structure SimState where
  fire : List Int
  woodMap : List Nat

/-- Model of `resize` (`main.go`/`part_003`): on a size change, set
`fireHeight = height * 2`, reallocate the heat field via `initFire`, and
regenerate the ownership grid via `generateLogs` (modelled here as the
depth-sort/id-reassign/rasterize pipeline over the placed capsules; the
hearth-bounds bookkeeping of `resize` does not touch either grid). -/
def resize (width height : Nat) (logs : List Capsule) : SimState :=
  let fireHeight := height * 2
  { fire := initFire width fireHeight
    woodMap := rasterize width height (generateIds logs) }

/-! ## Heat-field range invariant -/

/-- Every stored heat value lies in `[0, 36]`. -/
def HeatOK (fire : List Int) : Prop := ∀ v ∈ fire, 0 ≤ v ∧ v ≤ 36

instance (fire : List Int) : Decidable (HeatOK fire) :=
  List.decidableBAll _ fire

lemma getD_mem_or_eq (l : List Int) (n : Nat) (d : Int) :
    l.getD n d ∈ l ∨ l.getD n d = d := by
  rw [List.getD_eq_getElem?_getD]
  rcases h : l[n]? with _ | v
  · right; rfl
  · left
    rcases List.getElem?_eq_some.mp h with ⟨hlt, he⟩
    simpa [he] using List.getElem_mem hlt

lemma heatOK_set {fire : List Int} (h : HeatOK fire) {v : Int}
    (hv : 0 ≤ v ∧ v ≤ 36) (i : Nat) : HeatOK (fire.set i v) := by
  intro w hw
  rcases List.mem_or_eq_of_mem_set hw with h1 | rfl
  · exact h w h1
  · exact hv

lemma foldl_preserve {α : Type} {β : Type} (P : α → Prop) (f : α → β → α)
    (hf : ∀ a x, P a → P (f a x)) :
    ∀ (l : List β) (a : α), P a → P (l.foldl f a)
  | [], _, h => h
  | x :: xs, a, h => foldl_preserve P f hf xs (f a x) (hf a x h)

lemma getD_bounds {fire : List Int} (h : HeatOK fire) (n : Nat) :
    0 ≤ fire.getD n 0 ∧ fire.getD n 0 ≤ 36 := by
  rcases getD_mem_or_eq fire n 0 with hm | he
  · exact h _ hm
  · rw [he]; constructor <;> norm_num

lemma max_heat_le (pixel : Int) (d : Nat) (h36 : pixel ≤ 36) :
    0 ≤ max 0 (pixel - (d : Int)) ∧ max 0 (pixel - (d : Int)) ≤ 36 :=
  ⟨le_max_left _ _, max_le (by norm_num) (by omega)⟩

lemma propagateCell_heatOK (cfg : FireCfg) (fire : List Int) (g : Rng)
    (x y : Nat) (h : HeatOK fire) : HeatOK (propagateCell cfg fire g x y).1 := by
  have hpix := getD_bounds h (y * cfg.width + x)
  unfold propagateCell
  dsimp only
  split
  · split
    · exact heatOK_set h (by constructor <;> norm_num) _
    · exact h
  · exact heatOK_set h (max_heat_le _ _ hpix.2) _

lemma propagate_heatOK (cfg : FireCfg) (fire : List Int) (g : Rng)
    (h : HeatOK fire) : HeatOK (propagate cfg fire g).1 := by
  unfold propagate
  exact foldl_preserve (fun fg : List Int × Rng => HeatOK fg.1) _
    (fun fg x hfg =>
      foldl_preserve (fun fg : List Int × Rng => HeatOK fg.1) _
        (fun fg y hfg => propagateCell_heatOK cfg fg.1 fg.2 x y hfg) _ fg hfg)
    _ (fire, g) h

lemma refuelCol_heatOK (cfg : FireCfg) (wood : List Nat) (fire : List Int)
    (g : Rng) (x : Nat) (h : HeatOK fire) :
    HeatOK (refuelCol cfg wood fire g x).1 := by
  unfold refuelCol
  dsimp only
  split_ifs <;>
    first
      | exact h
      | exact heatOK_set h (by constructor <;> norm_num) _

lemma refuel_heatOK (cfg : FireCfg) (wood : List Nat) (fire : List Int)
    (g : Rng) (h : HeatOK fire) : HeatOK (refuel cfg wood fire g).1 := by
  unfold refuel
  exact foldl_preserve (fun fg : List Int × Rng => HeatOK fg.1) _
    (fun fg x hfg => refuelCol_heatOK cfg wood fg.1 fg.2 x hfg) _ (fire, g) h

lemma ember_heatOK (cfg : FireCfg) (fire : List Int) (g : Rng)
    (h : HeatOK fire) : HeatOK (ember cfg fire g).1 := by
  unfold ember
  dsimp only
  split
  · split
    · exact heatOK_set h (by constructor <;> norm_num) _
    · exact h
  · exact h

/-! ## Zero-state stability lemmas -/

lemma replicate_zero_getD (n i : Nat) :
    (List.replicate n (0 : Int)).getD i 0 = 0 := by
  rw [List.getD_eq_getElem?_getD, List.getElem?_replicate]
  split <;> rfl

lemma replicate_zero_getD_nat (n i : Nat) :
    (List.replicate n (0 : Nat)).getD i 0 = 0 := by
  rw [List.getD_eq_getElem?_getD, List.getElem?_replicate]
  split <;> rfl

lemma replicate_zero_set (n i : Nat) :
    (List.replicate n (0 : Int)).set i 0 = List.replicate n 0 := by
  induction n generalizing i with
  | zero => rfl
  | succ n ih =>
    cases i with
    | zero => simp [List.replicate_succ]
    | succ i => simp [List.replicate_succ, ih]

lemma propagateCell_zero (cfg : FireCfg) (g : Rng) (x y n : Nat) :
    propagateCell cfg (List.replicate n 0) g x y = (List.replicate n 0, g) := by
  unfold propagateCell
  dsimp only
  rw [if_pos (replicate_zero_getD n _)]
  split <;> simp [replicate_zero_set]

lemma propagate_zero (cfg : FireCfg) (g : Rng) (n : Nat) :
    propagate cfg (List.replicate n 0) g = (List.replicate n 0, g) := by
  unfold propagate
  refine foldl_preserve (fun fg => fg = (List.replicate n 0, g)) _ ?_ _ _ rfl
  intro a x ha
  refine foldl_preserve (fun fg => fg = (List.replicate n 0, g)) _ ?_ _ a ha
  intro b y hb
  rw [hb]
  exact propagateCell_zero cfg g x y n

lemma firstOwnedRow_replicate (n w x : Nat) :
    ∀ ys, firstOwnedRow (List.replicate n 0) w x ys = none := by
  intro ys
  induction ys with
  | nil => rfl
  | cons y ys ih => simp [firstOwnedRow, replicate_zero_getD_nat, ih]

lemma getLogHeight_replicate (cfg : FireCfg) (n x : Nat) :
    getLogHeight cfg (List.replicate n 0) x = 0 := by
  unfold getLogHeight
  split
  · rfl
  · rw [firstOwnedRow_replicate]

lemma refuelCol_no_fuel (cfg : FireCfg) (wood : List Nat) (fire : List Int)
    (g : Rng) (x : Nat) (h0 : getLogHeight cfg wood x = 0) :
    refuelCol cfg wood fire g x = (fire, g) := by
  unfold refuelCol
  rw [if_pos h0]

lemma refuel_zero_wood (cfg : FireCfg) (m : Nat) (fire : List Int) (g : Rng) :
    refuel cfg (List.replicate m 0) fire g = (fire, g) := by
  unfold refuel
  refine foldl_preserve (fun fg => fg = (fire, g)) _ ?_ _ _ rfl
  intro a x ha
  rw [ha]
  exact refuelCol_no_fuel _ _ _ _ _ (getLogHeight_replicate cfg m x)

lemma ember_zero_chance (cfg : FireCfg) (h : cfg.emberChance = 0)
    (fire : List Int) (g : Rng) : (ember cfg fire g).1 = fire := by
  unfold ember
  dsimp only
  have hc : ¬(g.intn 100).1 < cfg.emberChance := by rw [h]; omega
  rw [if_neg hc]

/-! ## Claim theorems: heat field -/

/-- C1: for every tick, starting from a Heat Field whose cells all lie in
`[0, 36]`, after the full tick update (propagate-and-decay over all
columns, then refuel, then the ember step) every cell again lies in
`[0, 36]` — for every configuration, ownership grid and random stream. -/
theorem updateFire_heat_range (cfg : FireCfg) (wood : List Nat)
    (fire : List Int) (g : Rng) (h : HeatOK fire) :
    HeatOK (updateFire cfg wood fire g).1 := by
  unfold updateFire
  exact ember_heatOK _ _ _ (refuel_heatOK _ _ _ _ (propagate_heatOK _ _ _ h))

/-- Witness for C1 at a concrete state: width 2, height 1, fire rows 2,
hearth `[0, 1)`, ember chance 8 (the source constant). -/
theorem updateFire_heat_range_witness :
    HeatOK (updateFire ⟨2, 1, 2, 0, 1, 8⟩ [0, 0] [0, 36, 20, 5]
      ⟨fun n => n, 0⟩).1 :=
  updateFire_heat_range _ _ _ _ (by decide)

/-- C9: whenever the propagate-and-decay sweep processes a source cell
with nonzero (and nonnegative) heat `pixel`, it writes
`max 0 (pixel - decay)` for some `decay ≥ 0` to some column of the row
above, and the written value never exceeds `pixel`. -/
theorem propagateCell_writes_decayed (cfg : FireCfg) (fire : List Int)
    (g : Rng) (x y : Nat)
    (hpx : fire.getD (y * cfg.width + x) 0 ≠ 0)
    (hnn : 0 ≤ fire.getD (y * cfg.width + x) 0) :
    ∃ (dstX : Nat) (d : Int) (g' : Rng), 0 ≤ d ∧
      (propagateCell cfg fire g x y).1 =
        fire.set ((y - 1) * cfg.width + dstX)
          (max 0 (fire.getD (y * cfg.width + x) 0 - d)) ∧
      max 0 (fire.getD (y * cfg.width + x) 0 - d) ≤
        fire.getD (y * cfg.width + x) 0 := by
  unfold propagateCell
  dsimp only
  rw [if_neg hpx]
  refine ⟨_, _, ((g.intn 3).2.intn 2).2, Int.ofNat_nonneg _, rfl, ?_⟩
  exact max_le hnn (by omega)

/-- Witness for C9 at a concrete cell: a 1-wide grid whose row-1 cell
holds heat 7. -/
theorem propagateCell_writes_decayed_witness :
    ∃ (dstX : Nat) (d : Int) (g' : Rng), 0 ≤ d ∧
      (propagateCell ⟨1, 1, 2, 0, 1, 8⟩ [0, 7] ⟨fun n => n, 0⟩ 0 1).1 =
        [0, 7].set ((1 - 1) * 1 + dstX)
          (max 0 (([0, 7] : List Int).getD (1 * 1 + 0) 0 - d)) ∧
      max 0 (([0, 7] : List Int).getD (1 * 1 + 0) 0 - d) ≤
        ([0, 7] : List Int).getD (1 * 1 + 0) 0 :=
  propagateCell_writes_decayed ⟨1, 1, 2, 0, 1, 8⟩ [0, 7] ⟨fun n => n, 0⟩ 0 1
    (by decide) (by decide)

/-- C7: on a width-4, height-3 grid (6 fire rows, hearth `[0, 3)` as
computed by `resize` for width 4), with all-zero heat, no ownership
anywhere and the ember event disabled (probability 0), one tick leaves the
Heat Field all zero for every sequence of random draws. -/
theorem zero_tick_stable :
    ∀ g : Rng,
      (updateFire ⟨4, 3, 6, 0, 3, 0⟩ (List.replicate 12 0)
          (List.replicate 24 0) g).1 =
        List.replicate 24 0 := by
  intro g
  unfold updateFire
  dsimp only
  rw [propagate_zero]
  dsimp only
  rw [refuel_zero_wood]
  exact ember_zero_chance _ rfl _ _

/-! ## Fuel-height characterization and refuel frame -/

lemma firstOwnedRow_range' (wood : List Nat) (w x : Nat) :
    ∀ (c s r : Nat), s ≤ r → r < s + c →
      wood.getD (r * w + x) 0 ≠ 0 →
      (∀ r', s ≤ r' → r' < r → wood.getD (r' * w + x) 0 = 0) →
      firstOwnedRow wood w x (List.range' s c) = some r := by
  intro c
  induction c with
  | zero => intro s r h1 h2 _ _; omega
  | succ c ih =>
    intro s r h1 h2 hr hzero
    rw [List.range'_succ]
    unfold firstOwnedRow
    rcases eq_or_lt_of_le h1 with rfl | hlt
    · rw [if_pos hr]
    · rw [if_neg (by simpa using hzero s le_rfl hlt)]
      exact ih (s + 1) r hlt (by omega) hr (fun r' ha hb => hzero r' (by omega) hb)

lemma firstOwnedRow_none (wood : List Nat) (w x : Nat) :
    ∀ ys, (∀ y ∈ ys, wood.getD (y * w + x) 0 = 0) →
      firstOwnedRow wood w x ys = none := by
  intro ys
  induction ys with
  | nil => intro _; rfl
  | cons y ys ih =>
    intro hz
    unfold firstOwnedRow
    rw [if_neg (by simpa using hz y (List.mem_cons_self y ys))]
    exact ih fun y' hy' => hz y' (List.mem_cons_of_mem _ hy')

lemma getD_set_ne (l : List Int) (i j : Nat) (hij : i ≠ j) (a : Int) :
    (l.set i a).getD j 0 = l.getD j 0 := by
  rw [List.getD_eq_getElem?_getD, List.getD_eq_getElem?_getD,
    List.getElem?_set_ne hij]

lemma col_of_flat_ne {w a b xa xb : Nat} (hxa : xa < w) (hxb : xb < w)
    (hne : xa ≠ xb) : a * w + xa ≠ b * w + xb := by
  intro h
  have h1 : (a * w + xa) % w = xa := by
    rw [Nat.mul_comm, Nat.mul_add_mod, Nat.mod_eq_of_lt hxa]
  have h2 : (b * w + xb) % w = xb := by
    rw [Nat.mul_comm, Nat.mul_add_mod, Nat.mod_eq_of_lt hxb]
  exact hne (by rw [← h1, h, h2])

set_option maxHeartbeats 1600000 in
lemma refuelCol_frame (cfg : FireCfg) (wood : List Nat) (fire : List Int)
    (g : Rng) (xc x row : Nat) (hx : x < cfg.width) (hxc : xc < cfg.width)
    (hne : xc ≠ x ∨ getLogHeight cfg wood xc = 0) :
    ((refuelCol cfg wood fire g xc).1).getD (row * cfg.width + x) 0 =
      fire.getD (row * cfg.width + x) 0 := by
  rcases hne with hne | h0
  · unfold refuelCol
    dsimp only
    split_ifs <;>
      first
        | rfl
        | exact getD_set_ne _ _ _ (col_of_flat_ne hxc hx hne) _
  · rw [refuelCol_no_fuel _ _ _ _ _ h0]

lemma refuel_fold_frame (cfg : FireCfg) (wood : List Nat) (x row : Nat)
    (hx : x < cfg.width) :
    ∀ (xs : List Nat) (s : List Int × Rng),
      (∀ xc ∈ xs, xc < cfg.width ∧ (xc ≠ x ∨ getLogHeight cfg wood xc = 0)) →
      ((xs.foldl (fun fg xc => refuelCol cfg wood fg.1 fg.2 xc) s).1).getD
          (row * cfg.width + x) 0 = (s.1).getD (row * cfg.width + x) 0 := by
  intro xs
  induction xs with
  | nil => intro s _; rfl
  | cons xc xs ih =>
    intro s hmem
    rw [List.foldl_cons]
    rw [ih (refuelCol cfg wood s.1 s.2 xc)
      (fun xc' h' => hmem xc' (List.mem_cons_of_mem _ h'))]
    exact refuelCol_frame cfg wood s.1 s.2 xc x row hx
      (hmem xc (List.mem_cons_self xc xs)).1
      (hmem xc (List.mem_cons_self xc xs)).2

/-! ## Claim theorems: fuel height and refuel -/

/-- C5: for every column `x` in `[0, width)`, `getLogHeight` returns
`height - 1 - r` where `r` is the smallest row index (scanning rows from
`0` upward) with nonzero ownership in column `x`, and returns `0` when no
cell of column `x` has nonzero ownership. -/
theorem getLogHeight_spec (cfg : FireCfg) (wood : List Nat) (x : Nat)
    (hx : x < cfg.width) :
    (∀ r : Nat, r < cfg.height → wood.getD (r * cfg.width + x) 0 ≠ 0 →
        (∀ r' < r, wood.getD (r' * cfg.width + x) 0 = 0) →
        getLogHeight cfg wood x = cfg.height - 1 - r) ∧
    ((∀ r < cfg.height, wood.getD (r * cfg.width + x) 0 = 0) →
      getLogHeight cfg wood x = 0) := by
  constructor
  · intro r hr hnz hzero
    unfold getLogHeight
    rw [if_neg (by omega), List.range_eq_range',
      firstOwnedRow_range' wood cfg.width x cfg.height 0 r (Nat.zero_le r)
        (by omega) hnz (fun r' _ hb => hzero r' hb)]
  · intro hz
    unfold getLogHeight
    rw [if_neg (by omega),
      firstOwnedRow_none wood cfg.width x _
        (fun y hy => hz y (List.mem_range.mp hy))]

/-- Witness for C5: on a 2×3 grid whose column 0 first holds ownership in
row 1, the fuel height is `3 - 1 - 1 = 1`. -/
theorem getLogHeight_spec_witness :
    getLogHeight ⟨2, 3, 6, 0, 2, 8⟩ [0, 0, 3, 0, 1, 0] 0 = 3 - 1 - 1 :=
  (getLogHeight_spec ⟨2, 3, 6, 0, 2, 8⟩ [0, 0, 3, 0, 1, 0] 0 (by decide)).1
    1 (by decide) (by decide) (by decide)

/-- C6: a column whose fuel height is `0` receives no write from the
refuel step, whatever the random draws: every cell of that column reads
the same after `refuel` as before. -/
theorem refuel_no_fuel_frame (cfg : FireCfg) (wood : List Nat)
    (fire : List Int) (g : Rng) (x : Nat) (hx : x < cfg.width)
    (hR : cfg.hearthRight ≤ cfg.width)
    (h0 : getLogHeight cfg wood x = 0) :
    ∀ row : Nat,
      ((refuel cfg wood fire g).1).getD (row * cfg.width + x) 0 =
        fire.getD (row * cfg.width + x) 0 := by
  intro row
  unfold refuel
  apply refuel_fold_frame cfg wood x row hx
  intro xc hxc
  rw [List.mem_range'_1] at hxc
  refine ⟨by omega, ?_⟩
  by_cases hcx : xc = x
  · right; rw [hcx]; exact h0
  · left; exact hcx

/-- Witness for C6: column 0 of a 2×2 grid has no ownership; the refuel
step leaves its cells untouched (row 0 shown). -/
theorem refuel_no_fuel_frame_witness :
    ((refuel ⟨2, 2, 4, 0, 2, 8⟩ [0, 5, 0, 0] [1, 2, 3, 4, 5, 6, 7, 8]
        ⟨fun n => n, 0⟩).1).getD (0 * 2 + 0) 0 =
      ([1, 2, 3, 4, 5, 6, 7, 8] : List Int).getD (0 * 2 + 0) 0 :=
  refuel_no_fuel_frame ⟨2, 2, 4, 0, 2, 8⟩ [0, 5, 0, 0]
    [1, 2, 3, 4, 5, 6, 7, 8] ⟨fun n => n, 0⟩ 0 (by decide) (by decide)
    (by decide) 0

/-- C10: a column whose only nonzero ownership lies in the bottom row
(`height - 1`) has fuel height `0`, and consequently the refuel step never
writes into that column even though it contains geometry. -/
theorem bottom_row_only_no_refuel (cfg : FireCfg) (wood : List Nat)
    (fire : List Int) (g : Rng) (x : Nat) (hx : x < cfg.width)
    (hR : cfg.hearthRight ≤ cfg.width) (hh : 0 < cfg.height)
    (hgeom : wood.getD ((cfg.height - 1) * cfg.width + x) 0 ≠ 0)
    (habove : ∀ r < cfg.height - 1, wood.getD (r * cfg.width + x) 0 = 0) :
    getLogHeight cfg wood x = 0 ∧
    ∀ row : Nat,
      ((refuel cfg wood fire g).1).getD (row * cfg.width + x) 0 =
        fire.getD (row * cfg.width + x) 0 := by
  have h0 : getLogHeight cfg wood x = 0 := by
    unfold getLogHeight
    rw [if_neg (by omega), List.range_eq_range',
      firstOwnedRow_range' wood cfg.width x cfg.height 0 (cfg.height - 1)
        (Nat.zero_le _) (by omega) hgeom (fun r' _ hb => habove r' hb)]
    dsimp only
    omega
  refine ⟨h0, ?_⟩
  intro row
  unfold refuel
  apply refuel_fold_frame cfg wood x row hx
  intro xc hxc
  rw [List.mem_range'_1] at hxc
  refine ⟨by omega, ?_⟩
  by_cases hcx : xc = x
  · right; rw [hcx]; exact h0
  · left; exact hcx

/-- Witness for C10: a 2×2 grid whose column 0 only owns the bottom-row
cell has fuel height `0`. -/
theorem bottom_row_only_no_refuel_witness :
    getLogHeight ⟨2, 2, 4, 0, 2, 8⟩ [0, 0, 5, 0] 0 = 0 :=
  (bottom_row_only_no_refuel ⟨2, 2, 4, 0, 2, 8⟩ [0, 0, 5, 0]
    [0, 0, 0, 0, 0, 0, 0, 0] ⟨fun n => n, 0⟩ 0 (by decide) (by decide)
    (by decide) (by decide) (by decide)).1

/-! ## Geometry lemmas -/

lemma reassignIds_length (i : Nat) (l : List Capsule) :
    (reassignIds i l).length = l.length := by
  induction l generalizing i with
  | nil => rfl
  | cons a l ih => simp [reassignIds, ih]

lemma reassignIds_map_depth (i : Nat) (l : List Capsule) :
    (reassignIds i l).map (·.depth) = l.map (·.depth) := by
  induction l generalizing i with
  | nil => rfl
  | cons a l ih => simp [reassignIds, ih]

lemma reassignIds_map_id (i : Nat) (l : List Capsule) :
    (reassignIds i l).map (·.id) =
      (List.range l.length).map (fun k => i + k + 1) := by
  induction l generalizing i with
  | nil => rfl
  | cons a l ih =>
    simp only [reassignIds, List.map_cons, ih, List.length_cons,
      List.range_succ_eq_map, List.map_map]
    refine congrArg₂ _ (by omega) ?_
    apply List.map_congr_left
    intro k _
    simp [Function.comp, Nat.succ_eq_add_one]
    omega

lemma reassignIds_pairwise_depth (i : Nat) (l : List Capsule)
    (h : l.Pairwise depthLE) : (reassignIds i l).Pairwise depthLE := by
  have h2 : List.Pairwise (fun a b : ℚ => a ≤ b)
      ((reassignIds i l).map (·.depth)) := by
    rw [reassignIds_map_depth]
    exact List.pairwise_map.mpr h
  have h3 := List.pairwise_map.mp h2
  exact h3

lemma foldr_max_le (c : Nat) :
    ∀ (l : List Nat), (∀ v ∈ l, v ≤ c) → l.foldr max 0 ≤ c
  | [], _ => Nat.zero_le c
  | v :: vs, h => by
    simp only [List.foldr_cons]
    exact max_le (h v (List.mem_cons_self v vs))
      (foldr_max_le c vs fun u hu => h u (List.mem_cons_of_mem _ hu))

lemma foldr_max_append (l1 l2 : List Nat) :
    (l1 ++ l2).foldr max 0 = max (l1.foldr max 0) (l2.foldr max 0) := by
  induction l1 with
  | nil => simp
  | cons a l ih =>
    simp only [List.cons_append, List.foldr_cons, ih]
    exact (max_assoc a (l.foldr max 0) (l2.foldr max 0)).symm

lemma foldr_max_reverse (l : List Nat) :
    l.reverse.foldr max 0 = l.foldr max 0 := by
  induction l with
  | nil => rfl
  | cons a l ih =>
    simp only [List.reverse_cons, foldr_max_append, ih, List.foldr_cons,
      List.foldr_nil, Nat.max_zero]
    exact max_comm _ _

lemma findHit_max (px py : ℚ) :
    ∀ (ls : List Capsule), List.Pairwise (fun a b => b.id < a.id) ls →
      findHit ls px py =
        ((ls.filter (fun l => capsuleCovers l px py)).map (·.id)).foldr
          max 0 := by
  intro ls
  induction ls with
  | nil => intro _; rfl
  | cons l ls ih =>
    intro hp
    rcases List.pairwise_cons.mp hp with ⟨hhead, htail⟩
    unfold findHit
    by_cases hc : capsuleCovers l px py
    · rw [if_pos hc]
      simp only [List.filter_cons, hc, if_pos, List.map_cons, List.foldr_cons]
      have hrest :
          ((ls.filter (fun l => capsuleCovers l px py)).map (·.id)).foldr
            max 0 ≤ l.id := by
        apply foldr_max_le
        intro v hv
        rcases List.mem_map.mp hv with ⟨b, hb, rfl⟩
        exact le_of_lt (hhead b (List.mem_of_mem_filter hb))
      omega
    · rw [if_neg hc]
      simp only [List.filter_cons, hc]
      simpa using ih htail

lemma coverId_max (logs : List Capsule) (px py : ℚ)
    (hmono : List.Pairwise (fun a b => a.id < b.id) logs) :
    coverId logs px py =
      ((logs.filter (fun l => capsuleCovers l px py)).map (·.id)).foldr
        max 0 := by
  unfold coverId
  rw [findHit_max px py logs.reverse (List.pairwise_reverse.mpr hmono),
    List.filter_reverse, List.map_reverse, foldr_max_reverse]

/-! ## Claim theorems: geometry -/

/-- C3: after `generateLogs`' sort-and-reassign, the capsule ids are the
contiguous sequence `1..N` in list order, the list is in ascending depth
order (so the smallest depth key carries id 1 and the largest id N), and
id `0` is never assigned to a capsule. -/
theorem generateIds_contiguous (logs : List Capsule) :
    (generateIds logs).map (·.id) =
      (List.range (generateIds logs).length).map (· + 1) ∧
    (generateIds logs).Pairwise depthLE ∧
    ∀ l ∈ generateIds logs, l.id ≠ 0 := by
  have hmap : (generateIds logs).map (·.id) =
      (List.range (sortByDepth logs).length).map (fun k => 0 + k + 1) :=
    reassignIds_map_id 0 _
  have hlen : (generateIds logs).length = (sortByDepth logs).length :=
    reassignIds_length 0 _
  refine ⟨?_, ?_, ?_⟩
  · rw [hmap, hlen]
    exact (List.map_congr_left fun k _ => by omega).symm
  · exact reassignIds_pairwise_depth 0 _
      (List.sorted_insertionSort depthLE logs)
  · intro l hl
    have hm : l.id ∈ (generateIds logs).map (·.id) :=
      List.mem_map_of_mem _ hl
    rw [hmap] at hm
    rcases List.mem_map.mp hm with ⟨k, _, hk⟩
    omega

/-- C2: after rasterization, every in-range cell `(x, y)` holds the
highest id among the capsules whose squared point-to-segment distance to
the cell in the `aspect`-scaled space is within `(radius · aspect)²`
(the front-most capsule, since ids increase along the list), and `0` when
no capsule covers the cell (`foldr max 0` of the empty id list). -/
theorem rasterize_frontmost (w h : Nat) (logs : List Capsule)
    (hmono : List.Pairwise (fun a b => a.id < b.id) logs)
    (x y : Nat) (hx : x < w) (hy : y < h) :
    (rasterize w h logs).getD (y * w + x) 0 =
      ((logs.filter (fun l => capsuleCovers l (x : ℚ) (y : ℚ))).map
        (·.id)).foldr max 0 := by
  have hw : 0 < w := by omega
  have heq : y * w + x = w * y + x := by ring
  have hidx : y * w + x < w * h := by
    have h1 : w * y + x < w * (y + 1) := by
      rw [Nat.mul_add]
      omega
    have h2 : w * (y + 1) ≤ w * h := Nat.mul_le_mul_left w hy
    omega
  unfold rasterize
  rw [List.getD_eq_getElem?_getD, List.getElem?_map,
    List.getElem?_range hidx]
  have hmod : (y * w + x) % w = x := by
    rw [heq, Nat.mul_add_mod, Nat.mod_eq_of_lt hx]
  have hdiv : (y * w + x) / w = y := by
    rw [heq, Nat.mul_add_div hw, Nat.div_eq_of_lt hx]
    omega
  rw [Option.map_some']
  dsimp only [Option.getD]
  rw [hmod, hdiv, coverId_max logs _ _ hmono]

/-- Witness for C2: one capsule `(0,0)-(10,0)`, radius 2, id 1, on an
11×1 grid; the cell `(5, 0)` lies on the segment and gets id 1. -/
theorem rasterize_frontmost_witness :
    (rasterize 11 1 [⟨0, 0, 10, 0, 2, 0, 1⟩]).getD (0 * 11 + 5) 0 =
      ((([⟨0, 0, 10, 0, 2, 0, 1⟩] : List Capsule).filter
        (fun l => capsuleCovers l (5 : ℚ) (0 : ℚ))).map (·.id)).foldr
          max 0 :=
  rasterize_frontmost 11 1 [⟨0, 0, 10, 0, 2, 0, 1⟩]
    (List.pairwise_singleton _ _) 5 0 (by decide) (by decide)

/-- C4 counterexample: in the `part_000`/`part_002` rasterizer (no
zero-length guard) the degenerate capsule with both endpoints at the
origin is not skipped — the computation of the projection parameter `t`
reaches the division `dot / lenSq` with `lenSq = 0` at cell `(0, 0)`
(`none` marks the attempted division by zero). -/
theorem unguarded_raster_divides_by_zero :
    capsuleHit000 ⟨0, 0, 0, 0, 1, 0, 1⟩ 0 0 = none := by
  norm_num [capsuleHit000, checkedDiv]

/-- C4 amended: in the `part_001` rasterizer, every zero-length capsule
is skipped by the `lenSq == 0` guard before `t` is computed, so the
point-to-segment distance computation never divides by zero for any cell
and any capsule. -/
theorem guarded_raster_no_div_by_zero (l : Capsule) (px py : ℚ) :
    (capsuleHit001 l px py).isSome = true := by
  unfold capsuleHit001
  dsimp only
  split
  · rfl
  · rename_i hne
    unfold checkedDiv
    rw [if_neg hne]
    rfl

/-- C8: `resize` with `width = 0` or `height = 0` leaves both grids in a
valid empty (zero-length) state: the heat field is `make([]int, 0)` and
the rasterization loops run over no cells, so no index is ever accessed. -/
theorem resize_degenerate_safe (width height : Nat) (logs : List Capsule)
    (h : width = 0 ∨ height = 0) :
    (resize width height logs).fire = [] ∧
    (resize width height logs).woodMap = [] := by
  unfold resize initFire rasterize
  rcases h with rfl | rfl <;> simp

/-- Witness for C8: `resize` at width 0, height 5, with one capsule. -/
theorem resize_degenerate_safe_witness :
    (resize 0 5 [⟨0, 0, 1, 1, 1, 0, 1⟩]).fire = [] ∧
    (resize 0 5 [⟨0, 0, 1, 1, 1, 0, 1⟩]).woodMap = [] :=
  resize_degenerate_safe 0 5 [⟨0, 0, 1, 1, 1, 0, 1⟩] (by decide)

end Fireplace
